import Mathlib

/-!
Formal model of the nibabel array-proxy contract and its conformance
harness (`nibabel/tests/test_proxy_api.py`).

The repository sources provide the conformance test harness; the proxy,
header and scaling implementations it exercises (`nibabel.arrayproxy`,
`nibabel.analyze` and friends, `nibabel.volumeutils.apply_read_scaling`)
are collaborators not included in the sources, so they are modelled from
the specification, as flagged in the doc comments below.

Numeric values are modelled as exact rationals.  Every value the harness
writes or reads (small integers, and `raw * slope + inter` for
slope 2 and intercept 10) is exactly representable in the IEEE types the
real code uses, so rational arithmetic is a faithful model on the
harness's domain.  All rational arithmetic goes through `Rat.normalize`
so that proofs can be checked by kernel evaluation; bridge lemmas relate
these operations to the standard ones on `ℚ`.
-/

namespace NB

/-- Kernel-computable embedding of a natural number into `ℚ`. -/
def qofNat (n : Nat) : ℚ := Rat.normalize (Int.ofNat n) 1 one_ne_zero

/-- Kernel-computable negation on `ℚ`. -/
def qneg (a : ℚ) : ℚ := Rat.normalize (-a.num) a.den a.den_nz

/-- Kernel-computable multiplication on `ℚ`. -/
def qmul (a b : ℚ) : ℚ :=
  Rat.normalize (a.num * b.num) (a.den * b.den) (Nat.mul_ne_zero a.den_nz b.den_nz)

/-- Kernel-computable addition on `ℚ`. -/
def qadd (a b : ℚ) : ℚ :=
  Rat.normalize (a.num * b.den + b.num * a.den) (a.den * b.den)
    (Nat.mul_ne_zero a.den_nz b.den_nz)

/-- Kernel-computable integer power of two in `ℚ`. -/
def qpow2 : ℤ → ℚ
  | Int.ofNat k => Rat.normalize (Int.ofNat (2 ^ k)) 1 one_ne_zero
  | Int.negSucc k => Rat.normalize 1 (2 ^ (k + 1)) (pow_ne_zero _ two_ne_zero)

theorem qofNat_eq (n : Nat) : qofNat n = (n : ℚ) := by
  unfold qofNat
  rw [Rat.normalize_eq_mkRat]
  simp [Rat.mkRat_one]

theorem qmul_eq (a b : ℚ) : qmul a b = a * b := by
  rw [Rat.mul_def]; rfl

theorem qadd_eq (a b : ℚ) : qadd a b = a + b := by
  rw [Rat.add_def]; rfl

theorem qneg_eq (a : ℚ) : qneg a = -a := by
  unfold qneg
  rw [Rat.normalize_eq_mkRat, ← Rat.neg_mkRat, Rat.mkRat_self]

theorem qpow2_eq (z : ℤ) : qpow2 z = (2 : ℚ) ^ z := by
  cases z with
  | ofNat k =>
      simp only [qpow2]
      rw [Rat.normalize_eq_mkRat, Rat.mkRat_one]
      simp only [Int.ofNat_eq_coe, zpow_natCast]
      push_cast
      ring
  | negSucc k =>
      simp only [qpow2]
      rw [Rat.normalize_eq_mkRat, zpow_negSucc, Rat.mkRat_eq_div]
      push_cast
      exact one_div _

theorem qmul_one (a : ℚ) : qmul a 1 = a := by rw [qmul_eq, mul_one]

theorem qadd_zero (a : ℚ) : qadd a 0 = a := by rw [qadd_eq, add_zero]

/-- Element dtypes exercised by the conformance harness, plus `float64`,
the type the scaled values of integer inputs are promoted to. -/
inductive Dtype where
  | uint8
  | int16
  | float32
  | float64
deriving DecidableEq

/-- Byte order of the stored data block. -/
inductive Endian where
  | little
  | big
deriving DecidableEq

/-- Size of a stored element in bytes. -/
def Dtype.itemsize : Dtype → Nat
  | .uint8 => 1
  | .int16 => 2
  | .float32 => 4
  | .float64 => 8

/-- Little-endian byte decomposition of a bit pattern, `k` bytes wide. -/
def bytesLE (k n : Nat) : List Nat :=
  (List.range k).map fun i => n / 256 ^ i % 256

/-- Recompose a little-endian byte list into a bit pattern. -/
def fromLE (bs : List Nat) : Nat :=
  bs.foldr (fun b acc => b + 256 * acc) 0

/-- Arrange a little-endian byte list per the requested byte order. -/
def applyEndian (e : Endian) (bs : List Nat) : List Nat :=
  match e with
  | .little => bs
  | .big => bs.reverse

/-- Structural (fuel-based) base-2 logarithm, so that kernel evaluation
can unfold it; agrees with `Nat.log2` for fuel at least `n`. -/
def log2fuel : Nat → Nat → Nat
  | 0, _ => 0
  | fuel + 1, n => if n < 2 then 0 else log2fuel fuel (n / 2) + 1

/-- Base-2 logarithm (floor), structural in `n`. -/
def natLog2 (n : Nat) : Nat := log2fuel n n

/-- IEEE-754 binary32 bit pattern of a natural number, with truncation
toward zero for values too wide for the 24-bit significand (the harness
only stores values below `2 ^ 24`, where the encoding is exact). -/
def natToBits32 (n : Nat) : Nat :=
  if n = 0 then 0
  else
    let k := natLog2 n
    if k ≤ 23 then (127 + k) * 2 ^ 23 + (n * 2 ^ (23 - k) - 2 ^ 23)
    else (127 + k) * 2 ^ 23 + (n / 2 ^ (k - 23) - 2 ^ 23)

/-- IEEE-754 binary64 bit pattern of a natural number, with truncation
toward zero for values too wide for the 53-bit significand. -/
def natToBits64 (n : Nat) : Nat :=
  if n = 0 then 0
  else
    let k := natLog2 n
    if k ≤ 52 then (1023 + k) * 2 ^ 52 + (n * 2 ^ (52 - k) - 2 ^ 52)
    else (1023 + k) * 2 ^ 52 + (n / 2 ^ (k - 52) - 2 ^ 52)

/-- Rational value of an IEEE-754 binary32 bit pattern.  The exponent
field 255 (infinities and NaNs) is given the value of the same formula
extended past the largest finite exponent; the harness never stores such
patterns. -/
def bitsToValue32 (bits : Nat) : ℚ :=
  let s : Nat := bits / 2 ^ 31 % 2
  let e : Nat := bits / 2 ^ 23 % 2 ^ 8
  let m : Nat := bits % 2 ^ 23
  let mag : ℚ :=
    if e = 0 then qmul (qofNat m) (qpow2 (-149))
    else qmul (qofNat (2 ^ 23 + m)) (qpow2 ((e : ℤ) - 150))
  if s = 1 then qneg mag else mag

/-- Rational value of an IEEE-754 binary64 bit pattern, with the same
convention for the exponent field 2047 as `bitsToValue32`. -/
def bitsToValue64 (bits : Nat) : ℚ :=
  let s : Nat := bits / 2 ^ 63 % 2
  let e : Nat := bits / 2 ^ 52 % 2 ^ 11
  let m : Nat := bits % 2 ^ 52
  let mag : ℚ :=
    if e = 0 then qmul (qofNat m) (qpow2 (-1074))
    else qmul (qofNat (2 ^ 52 + m)) (qpow2 ((e : ℤ) - 1075))
  if s = 1 then qneg mag else mag

/-- Bit pattern stored on disk for a natural array value of the given
dtype (the harness only ever stores the values `0 .. n-1` of
`np.arange`, all nonnegative). -/
def Dtype.toBits : Dtype → Nat → Nat
  | .uint8, v => v % 2 ^ 8
  | .int16, v => v % 2 ^ 16
  | .float32, v => natToBits32 v
  | .float64, v => natToBits64 v

/-- Numeric value of a stored bit pattern of the given dtype
(`int16` is two's complement). -/
def Dtype.fromBits : Dtype → Nat → ℚ
  | .uint8, b => qofNat b
  | .int16, b => if b < 2 ^ 15 then qofNat b else qneg (qofNat (2 ^ 16 - b))
  | .float32, b => bitsToValue32 b
  | .float64, b => bitsToValue64 b

/-- Bytes stored for one element. -/
def encodeElem (d : Dtype) (e : Endian) (v : Nat) : List Nat :=
  applyEndian e (bytesLE d.itemsize (d.toBits v))

/-- Element value read back from its stored bytes. -/
def decodeElem (d : Dtype) (e : Endian) (bs : List Nat) : ℚ :=
  d.fromBits (fromLE (applyEndian e bs))

theorem encodeElem_length (d : Dtype) (e : Endian) (v : Nat) :
    (encodeElem d e v).length = d.itemsize := by
  unfold encodeElem applyEndian bytesLE
  cases e <;> simp

/-- Storage dtypes the harness writes to disk (`np.uint8`, `np.int16`,
`np.float32` in `TestAnalyzeProxyAPI.obj_params`). -/
def storageDtypes : List Dtype := [.uint8, .int16, .float32]

set_option maxRecDepth 4000 in
/-- Element encode/decode round-trips exactly on every value the
harness stores (`np.arange` over at most `2*3*4*5 = 120` elements). -/
theorem decode_encode_roundtrip :
    ∀ v ∈ List.range 120, ∀ d ∈ storageDtypes, ∀ e ∈ [Endian.little, Endian.big],
      decodeElem d e (encodeElem d e v) = qofNat v := by decide

/-- Product of a shape's dimensions (number of array elements). -/
def listProd (l : List Nat) : Nat := l.foldr (· * ·) 1

/-- Mixed-radix digits of a flat Fortran-order (first index fastest)
position, as a multi-index. -/
def unrankF : List Nat → Nat → List Nat
  | [], _ => []
  | s :: ss, j => (j % s) :: unrankF ss (j / s)

/-- Flat row-major (C-order, last index fastest) position of a
multi-index. -/
def rankC : List Nat → List Nat → Nat
  | _, [] => 0
  | [], _ => 0
  | _ :: ss, i :: is => i * listProd ss + rankC ss is

/-- Multi-index of a flat row-major (C-order) position. -/
def unrankC : List Nat → Nat → List Nat
  | [], _ => []
  | _ :: ss, i => (i / listProd ss) :: unrankC ss (i % listProd ss)

/-- Flat Fortran-order position of a multi-index. -/
def rankF : List Nat → List Nat → Nat
  | _, [] => 0
  | [], _ => 0
  | s :: ss, i :: is => i + s * rankF ss is

/-- C-order position of the element stored at Fortran-order position `j`. -/
def fToC (shape : List Nat) (j : Nat) : Nat := rankC shape (unrankF shape j)

/-- Fortran-order position of the element at C-order position `i`. -/
def cToF (shape : List Nat) (i : Nat) : Nat := rankF shape (unrankC shape i)

/-- Shapes exercised by the Analyze-family harness classes
(`TestAnalyzeProxyAPI.shapes`); the MGH class uses the sub-list of the
shapes with at least 3 dimensions. -/
def allShapes : List (List Nat) := [[2], [2, 3], [2, 3, 4], [2, 3, 4, 5]]

set_option maxRecDepth 4000 in
/-- On every shape the harness exercises, the Fortran/C order maps are
mutually inverse bijections of the element range. -/
theorem shape_perm_facts :
    ∀ s ∈ allShapes, ∀ i ∈ List.range (listProd s),
      cToF s i < listProd s ∧ fToC s i < listProd s ∧ fToC s (cToF s i) = i := by
  decide

/-- Header format variants behind the uniform capability interface. -/
inductive Variant where
  | analyze
  | spm99
  | spm2
  | nifti1
  | mgh
deriving DecidableEq

/-- Modelled from the spec: scaling support of each header class
(`has_slope` in the harness; plain Analyze has neither, SPM variants
have slope only, NIfTI-1 has both, MGH has neither). -/
def Variant.hasSlope : Variant → Bool
  | .spm99 => true
  | .spm2 => true
  | .nifti1 => true
  | _ => false

/-- Modelled from the spec: intercept support (`has_inter`); only
NIfTI-1 supports an intercept. -/
def Variant.hasInter : Variant → Bool
  | .nifti1 => true
  | _ => false

/-- Modelled from the spec: whether the data offset is settable
(`settable_offset`); MGH's offset is fixed by its format definition. -/
def Variant.settableOffset : Variant → Bool
  | .mgh => false
  | _ => true

/-- Modelled from the spec: enforced byte order of the data block
(`data_endian`); MGH always stores big-endian, the Analyze family uses
the native order, modelled as little-endian. -/
def Variant.dataEndian : Variant → Endian
  | .mgh => .big
  | _ => .little

/-- Modelled from the spec: minimum dimensionality of a data shape
(MGH requires at least 3 dimensions, the Analyze family at least 1). -/
def Variant.minDims : Variant → Nat
  | .mgh => 3
  | _ => 1

/-- Modelled from the spec: element dtypes each format accepts; all
accept the three dtypes the harness stores, MGH has no 64-bit float. -/
def Variant.supportedDtypes : Variant → List Dtype
  | .mgh => [.uint8, .int16, .float32]
  | _ => [.uint8, .int16, .float32, .float64]

/-- Modelled from the spec: the default data offset of a freshly
constructed header (`header_class().get_data_offset()`); MGH's format
fixes the data block right after its 284-byte header. -/
def Variant.fixedOffset : Variant → Nat
  | .mgh => 284
  | _ => 0

/-- Shapes the harness exercises for each variant
(`TestAnalyzeProxyAPI.shapes`, restricted in `TestMGHAPI.shapes`). -/
def Variant.shapes : Variant → List (List Nat)
  | .mgh => [[2, 3, 4], [2, 3, 4, 5]]
  | _ => allShapes

instance {ε α : Type} [DecidableEq ε] [DecidableEq α] : DecidableEq (Except ε α) := fun x y =>
  match x, y with
  | .ok a, .ok b =>
      if h : a = b then isTrue (by rw [h]) else isFalse (by intro hh; cases hh; exact h rfl)
  | .error a, .error b =>
      if h : a = b then isTrue (by rw [h]) else isFalse (by intro hh; cases hh; exact h rfl)
  | .ok _, .error _ => isFalse (by intro hh; cases hh)
  | .error _, .ok _ => isFalse (by intro hh; cases hh)

/-- Errors raised by header setters (spec §7 taxonomy). -/
inductive HdrError where
  | configurationError
  | unsupportedCapabilityError
deriving DecidableEq

/-- Modelled from the spec: the per-format header state the proxy
snapshots — dtype, shape, offset and the optional scaling pair
(defaulting to slope 1, intercept 0, meaning no rescaling). -/
structure HeaderData where
  variant : Variant
  dtype : Dtype
  shape : List Nat
  offset : Nat
  slope : ℚ
  inter : ℚ
deriving DecidableEq

/-- Modelled from the spec: a freshly constructed header of a variant. -/
def defaultHeader (v : Variant) : HeaderData :=
  { variant := v, dtype := .uint8, shape := [0], offset := v.fixedOffset,
    slope := 1, inter := 0 }

/-- Modelled from the spec: `set_data_dtype`; an unsupported element
type fails with a `ConfigurationError`. -/
def set_data_dtype (h : HeaderData) (d : Dtype) : Except HdrError HeaderData :=
  if d ∈ h.variant.supportedDtypes then .ok { h with dtype := d }
  else .error .configurationError

/-- Modelled from the spec: `set_data_shape`; the shape must be a
sequence of positive integers meeting the format's dimensionality
floor, else `ConfigurationError`. -/
def set_data_shape (h : HeaderData) (s : List Nat) : Except HdrError HeaderData :=
  if h.variant.minDims ≤ s.length ∧ ∀ d ∈ s, 0 < d then .ok { h with shape := s }
  else .error .configurationError

/-- Modelled from the spec: `set_data_offset`; only variants declaring
a settable offset accept it. -/
def set_data_offset (h : HeaderData) (n : Nat) : Except HdrError HeaderData :=
  if h.variant.settableOffset then .ok { h with offset := n }
  else .error .unsupportedCapabilityError

/-- Modelled from the spec: `set_slope_inter`; NIfTI-1 accepts both, the
SPM variants accept a slope with zero intercept, the rest only the
identity pair. -/
def set_slope_inter (h : HeaderData) (s i : ℚ) : Except HdrError HeaderData :=
  if h.variant.hasInter then .ok { h with slope := s, inter := i }
  else if h.variant.hasSlope then
    if i = 0 then .ok { h with slope := s } else .error .unsupportedCapabilityError
  else if s = 1 ∧ i = 0 then .ok h
  else .error .unsupportedCapabilityError

/-- Modelled from the spec: `get_slope_inter` reports only the
components the variant supports. -/
def get_slope_inter (h : HeaderData) : Option ℚ × Option ℚ :=
  (if h.variant.hasSlope then some h.slope else none,
   if h.variant.hasInter then some h.inter else none)

/-- Modelled from the spec: `copy()` returns a fully independent
duplicate; header records are plain values here, so a copy is the value
itself. -/
def HeaderData.copy (h : HeaderData) : HeaderData := h

/-- Plain in-memory array: element type, shape, and row-major values. -/
structure NDArr where
  dtype : Dtype
  shape : List Nat
  flat : List ℚ
deriving DecidableEq

/-- Modelled from the spec: the dtype `raw * slope + inter` promotes to
when scaling is applied with float (64-bit) slope/intercept — float
arrays keep their width, integer arrays widen to 64-bit float. -/
def promoteScaled : Dtype → Dtype
  | .float32 => .float32
  | .float64 => .float64
  | _ => .float64

/-- Modelled from the spec: `nibabel.volumeutils.apply_read_scaling`
(not among the sources) — the identity pair, detected by exact
equality, returns the array unchanged with its dtype; any other pair
takes the scaled, promoted path. -/
def apply_read_scaling (a : NDArr) (slope inter : ℚ) : NDArr :=
  if slope = 1 ∧ inter = 0 then a
  else { dtype := promoteScaled a.dtype, shape := a.shape,
         flat := a.flat.map fun v => qadd (qmul v slope) inter }

/-- Seekable byte stream (models `BytesIO` and open files): contents
plus a read/write position. -/
structure Stream where
  data : List Nat
  pos : Nat
deriving DecidableEq

/-- Move the stream position (absolute seek). -/
def Stream.seek (s : Stream) (k : Nat) : Stream := { s with pos := k }

/-- Read up to `k` bytes from the current position, advancing it. -/
def Stream.read (s : Stream) (k : Nat) : List Nat × Stream :=
  ((s.data.drop s.pos).take k, { s with pos := min s.data.length (s.pos + k) })

/-- Read to end-of-file (`fio.read()`), leaving the position at the
end. -/
def Stream.readAll (s : Stream) : List Nat × Stream :=
  (s.data.drop s.pos, { s with pos := s.data.length })

/-- Write bytes at the current position, zero-filling any gap past the
end of the existing contents (as `BytesIO` does after a seek past the
end). -/
def Stream.write (s : Stream) (bs : List Nat) : Stream :=
  { data := s.data.take s.pos ++ List.replicate (s.pos - s.data.length) 0 ++ bs
      ++ s.data.drop (s.pos + bs.length),
    pos := s.pos + bs.length }

/-- Data source of a proxy: a borrowed open stream (by handle) or an
owned path. -/
inductive Source where
  | stream (sid : Nat)
  | path (name : String)
deriving DecidableEq

/-- Mutable state a proxy can observe: header objects (by identity),
open streams (by handle), and the file system. -/
structure World where
  heap : List HeaderData
  streams : List Stream
  files : List (String × List Nat)
deriving DecidableEq

/-- Look a file's bytes up by name. -/
def lookupFile : List (String × List Nat) → String → Option (List Nat)
  | [], _ => none
  | (n, bs) :: rest, name => if n = name then some bs else lookupFile rest name

/-- Modelled from the spec: the array proxy's state after construction —
the data source and the snapshotted header copy; it never re-reads the
caller's header object. -/
structure ArrayProxy where
  source : Source
  hdr : HeaderData
deriving DecidableEq

/-- Modelled from the spec: `ArrayProxy(source, header)` snapshots the
header object (found in the heap by identity) via `copy()`. -/
def ArrayProxy.construct (w : World) (src : Source) (hid : Nat) : Option ArrayProxy :=
  (w.heap.get? hid).map fun h => { source := src, hdr := h.copy }

/-- Read-only `shape` accessor: the snapshotted shape. -/
def ArrayProxy.shape (p : ArrayProxy) : List Nat := p.hdr.shape

/-- Errors raised by proxy attribute assignment (spec §7 taxonomy). -/
inductive ProxyError where
  | immutableAttributeError
deriving DecidableEq

/-- Modelled from the spec: assigning to a proxy's `shape` attribute
always fails with an `ImmutableAttributeError`. -/
def ArrayProxy.setShapeAttr (_p : ArrayProxy) (_s : List Nat) :
    Except ProxyError ArrayProxy :=
  .error .immutableAttributeError

/-- Number of bytes of one array: `product(shape) * dtype.itemsize`. -/
def byteCount (h : HeaderData) : Nat := listProd h.shape * h.dtype.itemsize

/-- Decode raw bytes into row-major element values: the file holds the
elements in Fortran order, so the value at C-order position `i` is the
`cToF i`-th element of the byte stream. -/
def rawValues (d : Dtype) (e : Endian) (shape : List Nat) (bytes : List Nat) : List ℚ :=
  (List.range (listProd shape)).map fun i =>
    ((List.range (listProd shape)).map fun j =>
      decodeElem d e ((bytes.drop (j * d.itemsize)).take d.itemsize)).getD (cToF shape i) 0

/-- Modelled from the spec: interpret exactly `byteCount` bytes per the
snapshotted header (Fortran storage order, format byte order), then
apply the scaling function; fewer bytes than requested is a truncation
error (`none`). -/
def decodeArray (bytes : List Nat) (h : HeaderData) : Option NDArr :=
  if bytes.length = byteCount h then
    some (apply_read_scaling
      ⟨h.dtype, h.shape, rawValues h.dtype h.variant.dataEndian h.shape bytes⟩
      h.slope h.inter)
  else none

/-- Replace stream `sid`'s state. -/
def setStream (w : World) (sid : Nat) (s : Stream) : World :=
  { w with streams := w.streams.set sid s }

/-- Modelled from the spec: `materialize()` (`np.asarray(proxy)`) — for
a borrowed stream, seek explicitly to the snapshotted offset (never
trusting the caller's position), read, decode, and leave the stream
position where the read stopped; for an owned path, open a fresh handle
for this call only, so no caller-visible state changes. -/
def materialize (w : World) (p : ArrayProxy) : Option NDArr × World :=
  match p.source with
  | .stream sid =>
    match w.streams[sid]? with
    | none => (none, w)
    | some s =>
        let s1 := s.seek p.hdr.offset
        let (bs, s2) := s1.read (byteCount p.hdr)
        (decodeArray bs p.hdr, setStream w sid s2)
  | .path name =>
    match lookupFile w.files name with
    | none => (none, w)
    | some data =>
        let s1 := (Stream.mk data 0).seek p.hdr.offset
        let (bs, _) := s1.read (byteCount p.hdr)
        (decodeArray bs p.hdr, w)

/-- Repeated materialization: `materializeN w p k` is the result of the
`(k+1)`-th call when calls are chained through the evolving world. -/
def materializeN (w : World) (p : ArrayProxy) : Nat → Option NDArr × World
  | 0 => materialize w p
  | k + 1 => materializeN (materialize w p).2 p k

/-- Deprecation signal categories (the legacy accessor warns with
`FutureWarning`). -/
inductive Warning where
  | futureWarning
deriving DecidableEq

/-- Modelled from the spec: the backward-compatibility `header`
property — every access allocates a fresh copy of the internal snapshot
(returning its new identity) and emits a deprecation warning. -/
def ArrayProxy.headerProp (w : World) (p : ArrayProxy) : Nat × World × Warning :=
  (w.heap.length, { w with heap := w.heap ++ [p.hdr.copy] }, .futureWarning)

/-- Parameter tuple of one harness case: the loops of
`TestAnalyzeProxyAPI.obj_params` range over shape, dtype, offset, slope
and intercept. -/
structure CParams where
  variant : Variant
  shape : List Nat
  dtype : Dtype
  offset : Nat
  slope : ℚ
  inter : ℚ
deriving DecidableEq

/-- Offsets the harness exercises: `(0, 16)` when the offset is
settable, else only the fresh header's default offset. -/
def Variant.offsets (v : Variant) : List Nat :=
  if v.settableOffset then [0, 16] else [v.fixedOffset]

/-- Slopes the harness exercises: `(1., 2.)` with slope support, else
only `1.`. -/
def Variant.slopes (v : Variant) : List ℚ :=
  if v.hasSlope then [1, 2] else [1]

/-- Intercepts the harness exercises: `(0., 10.)` with intercept
support, else only `0.`. -/
def Variant.inters (v : Variant) : List ℚ :=
  if v.hasInter then [0, 10] else [0]

/-- All parameter tuples `obj_params` generates for one variant, in
loop order. -/
def paramsFor (v : Variant) : List CParams :=
  v.shapes.flatMap fun shape =>
    storageDtypes.flatMap fun d =>
      v.offsets.flatMap fun off =>
        v.slopes.flatMap fun s =>
          v.inters.map fun i =>
            { variant := v, shape := shape, dtype := d, offset := off,
              slope := s, inter := i }

/-- The five tested header variants (`TestAnalyzeProxyAPI`,
`TestSpm99AnalyzeProxyAPI`, `TestSpm2AnalyzeProxyAPI`,
`TestNifti1ProxyAPI`, `TestMGHAPI`). -/
def allVariants : List Variant := [.analyze, .spm99, .spm2, .nifti1, .mgh]

/-- Every parameter tuple of the whole conformance run. -/
def allParams : List CParams := allVariants.flatMap paramsFor

/-- Header the harness builds for a parameter tuple: fresh header, then
`set_data_dtype`, `set_data_shape`, `set_data_offset` when settable,
then `set_slope_inter` unless the pair is the identity `(1, 0)`. -/
def CParams.hdrE (p : CParams) : Except HdrError HeaderData := do
  let h0 := defaultHeader p.variant
  let h1 ← set_data_dtype h0 p.dtype
  let h2 ← set_data_shape h1 p.shape
  let h3 ← if p.variant.settableOffset then set_data_offset h2 p.offset else pure h2
  if p.slope = 1 ∧ p.inter = 0 then pure h3 else set_slope_inter h3 p.slope p.inter

/-- The header value the setter chain produces on harness parameters. -/
def CParams.mkHdr (p : CParams) : HeaderData :=
  { variant := p.variant, dtype := p.dtype, shape := p.shape,
    offset := p.offset, slope := p.slope, inter := p.inter }

/-- Number of array elements of a case. -/
def CParams.count (p : CParams) : Nat := listProd p.shape

/-- Raw bytes the harness writes: the `np.arange` array (value `i` at
C-order position `i`), serialized in Fortran order
(`arr.tostring(order='F')`) with the variant's data byte order, so file
position `j` holds the element at C-order position `fToC j`. -/
def CParams.dataBytes (p : CParams) : List Nat :=
  (List.range p.count).flatMap fun j =>
    encodeElem p.dtype p.variant.dataEndian (fToC p.shape j)

/-- Stream state `sio_func` hands to the proxy constructor: a fresh
`BytesIO`, sought to the offset, with the data written — leaving the
position at the end of the written data. -/
def CParams.streamInit (p : CParams) : Stream :=
  ((Stream.mk [] 0).seek p.offset).write p.dataBytes

/-- Flat values of the raw on-disk array. -/
def CParams.rawFlat (p : CParams) : List ℚ :=
  (List.range p.count).map qofNat

/-- Expected output values (`arr_out = arr * slope + inter`). -/
def CParams.arrOut (p : CParams) : List ℚ :=
  (List.range p.count).map fun v => qadd (qmul (qofNat v) p.slope) p.inter

/-- Expected output dtype, computed as the harness does: the raw dtype
when no scaling applies, else the dtype `apply_read_scaling` produces. -/
def CParams.dtypeOut (p : CParams) : Dtype :=
  if p.slope = 1 ∧ p.inter = 0 then p.dtype
  else (apply_read_scaling ⟨p.dtype, p.shape, p.rawFlat⟩ p.slope p.inter).dtype

/-- Expected materialized array of a case. -/
def CParams.expected (p : CParams) : NDArr :=
  ⟨p.dtypeOut, p.shape, p.arrOut⟩

/-- One generated conformance case: a parameter tuple together with the
kind of source (`sio_func` stream or `fname_func` path). -/
structure Case where
  params : CParams
  isStream : Bool
deriving DecidableEq

/-- Source handle of a case: the sole open stream, or the written
file's name. -/
def Case.source (c : Case) : Source :=
  if c.isStream then .stream 0 else .path "data.bin"

/-- World in which a case's proxy is constructed: the one header object
the constructor closure created, and the freshly written stream or
file. -/
def Case.world (c : Case) : World :=
  { heap := [c.params.mkHdr],
    streams := if c.isStream then [c.params.streamInit] else [],
    files := if c.isStream then [] else [("data.bin", c.params.streamInit.data)] }

/-- The proxy a case constructs (snapshot of the case's header). -/
def Case.proxy (c : Case) : ArrayProxy :=
  { source := c.source, hdr := c.params.mkHdr.copy }

/-- Every (stream and path) case of the whole conformance run, in yield
order. -/
def allCases : List Case :=
  allParams.flatMap fun p => [⟨p, true⟩, ⟨p, false⟩]

theorem construct_proxy (c : Case) :
    ArrayProxy.construct c.world c.source 0 = some c.proxy := rfl

theorem length_flatMap_const (f : Nat → List Nat) (sz : Nat)
    (hf : ∀ x, (f x).length = sz) :
    ∀ l : List Nat, (l.flatMap f).length = l.length * sz := by
  intro l
  induction l with
  | nil => simp
  | cons x xs ih =>
      simp [List.flatMap_cons, ih, hf, Nat.succ_mul, Nat.add_comm]

theorem flatMap_chunk (f : Nat → List Nat) (sz : Nat)
    (hf : ∀ x, (f x).length = sz) :
    ∀ (l : List Nat) (j : Nat), j < l.length →
      ((l.flatMap f).drop (j * sz)).take sz = f (l.getD j 0) := by
  intro l
  induction l with
  | nil => intro j hj; simp at hj
  | cons x xs ih =>
      intro j hj
      cases j with
      | zero =>
          rw [List.flatMap_cons, List.getD_cons_zero, Nat.zero_mul, List.drop_zero]
          exact List.take_left' (hf x)
      | succ j =>
          have hj' : j < xs.length := Nat.lt_of_succ_lt_succ hj
          rw [List.flatMap_cons, List.getD_cons_succ, Nat.succ_mul, Nat.add_comm,
            ← List.drop_drop, List.drop_left' (hf x)]
          exact ih j hj'

theorem rawValues_encode (d : Dtype) (e : Endian) (shape : List Nat)
    (hrt : ∀ v, v < listProd shape → decodeElem d e (encodeElem d e v) = qofNat v)
    (hfto : ∀ j, j < listProd shape → fToC shape j < listProd shape)
    (hcto : ∀ i, i < listProd shape → cToF shape i < listProd shape)
    (hperm : ∀ i, i < listProd shape → fToC shape (cToF shape i) = i) :
    rawValues d e shape
      ((List.range (listProd shape)).flatMap fun j => encodeElem d e (fToC shape j))
      = (List.range (listProd shape)).map qofNat := by
  unfold rawValues
  have hvals :
      ((List.range (listProd shape)).map fun j =>
        decodeElem d e
          ((((List.range (listProd shape)).flatMap fun j' =>
              encodeElem d e (fToC shape j')).drop (j * d.itemsize)).take d.itemsize))
      = (List.range (listProd shape)).map fun j => qofNat (fToC shape j) := by
    apply List.map_congr_left
    intro j hj
    have hj' : j < listProd shape := List.mem_range.mp hj
    rw [flatMap_chunk _ d.itemsize (fun x => encodeElem_length d e (fToC shape x)) _ j
      (by simpa using hj')]
    rw [List.getD_eq_getElem _ _ (by simpa using hj'), List.getElem_range]
    exact hrt (fToC shape j) (hfto j hj')
  rw [hvals]
  apply List.map_congr_left
  intro i hi
  have hi' : i < listProd shape := List.mem_range.mp hi
  have hlt : cToF shape i < ((List.range (listProd shape)).map fun j => qofNat (fToC shape j)).length := by
    simpa using hcto i hi'
  rw [List.getD_eq_getElem _ _ hlt, List.getElem_map, List.getElem_range, hperm i hi']

theorem dataBytes_length (p : CParams) :
    p.dataBytes.length = byteCount p.mkHdr := by
  unfold CParams.dataBytes byteCount
  rw [length_flatMap_const _ p.dtype.itemsize
    (fun x => encodeElem_length p.dtype p.variant.dataEndian (fToC p.shape x))]
  simp [CParams.mkHdr, CParams.count]

theorem streamInit_data (p : CParams) :
    p.streamInit.data = List.replicate p.offset 0 ++ p.dataBytes := by
  simp [CParams.streamInit, Stream.write, Stream.seek]

theorem streamInit_pos (p : CParams) :
    p.streamInit.pos = p.offset + p.dataBytes.length := rfl

theorem read_bytes_eq (p : CParams) :
    (p.streamInit.data.drop p.offset).take (byteCount p.mkHdr) = p.dataBytes := by
  rw [streamInit_data, List.drop_left' (List.length_replicate _ _), ← dataBytes_length,
    List.take_length]

theorem scaling_expected (p : CParams) :
    apply_read_scaling ⟨p.dtype, p.shape, p.rawFlat⟩ p.slope p.inter = p.expected := by
  unfold apply_read_scaling CParams.expected CParams.dtypeOut CParams.arrOut
  by_cases h : p.slope = 1 ∧ p.inter = 0
  · rw [if_pos h, if_pos h]
    unfold CParams.rawFlat
    refine congrArg (NDArr.mk p.dtype p.shape) ?_
    apply List.map_congr_left
    intro v _
    rw [h.1, h.2, qmul_one, qadd_zero]
  · rw [if_neg h, if_neg h, apply_read_scaling, if_neg h]
    unfold CParams.rawFlat
    refine congrArg (NDArr.mk (promoteScaled p.dtype) p.shape) ?_
    rw [List.map_map]
    rfl

set_option maxRecDepth 8000 in
/-- Facts about every generated parameter tuple: the shape is one of
the harness shapes, arrays have at most 120 elements, the dtype is a
storage dtype, and the setter chain succeeds with the expected header
value. -/
theorem params_facts :
    ∀ p ∈ allParams,
      p.shape ∈ allShapes ∧ p.count ≤ 120 ∧ 2 ≤ p.count ∧
        p.dtype ∈ storageDtypes ∧ p.hdrE = Except.ok p.mkHdr := by
  decide

theorem decodeArray_dataBytes (p : CParams)
    (hshape : p.shape ∈ allShapes) (h120 : p.count ≤ 120)
    (hdt : p.dtype ∈ storageDtypes) :
    decodeArray p.dataBytes p.mkHdr = some p.expected := by
  unfold decodeArray
  rw [if_pos (dataBytes_length p)]
  have hraw : rawValues p.dtype p.variant.dataEndian p.shape p.dataBytes
      = (List.range (listProd p.shape)).map qofNat := by
    unfold CParams.dataBytes
    apply rawValues_encode
    · intro v hv
      refine decode_encode_roundtrip v (List.mem_range.mpr (lt_of_lt_of_le hv h120))
        p.dtype hdt p.variant.dataEndian ?_
      cases p.variant.dataEndian <;> simp
    · intro j hj
      exact (shape_perm_facts p.shape hshape j (List.mem_range.mpr hj)).2.1
    · intro i hi
      exact (shape_perm_facts p.shape hshape i (List.mem_range.mpr hi)).1
    · intro i hi
      exact (shape_perm_facts p.shape hshape i (List.mem_range.mpr hi)).2.2
  show some (apply_read_scaling
    ⟨p.dtype, p.shape, rawValues p.dtype p.variant.dataEndian p.shape p.dataBytes⟩
    p.slope p.inter) = some p.expected
  rw [hraw]
  show some (apply_read_scaling ⟨p.dtype, p.shape, p.rawFlat⟩ p.slope p.inter)
    = some p.expected
  rw [scaling_expected]

theorem materialize_stream_eval (p : CParams)
    (hshape : p.shape ∈ allShapes) (h120 : p.count ≤ 120)
    (hdt : p.dtype ∈ storageDtypes) :
    (materialize ⟨[p.mkHdr], [p.streamInit], []⟩ ⟨Source.stream 0, p.mkHdr⟩).1
      = some p.expected := by
  show decodeArray ((p.streamInit.data.drop p.offset).take (byteCount p.mkHdr)) p.mkHdr
    = some p.expected
  rw [read_bytes_eq p]
  exact decodeArray_dataBytes p hshape h120 hdt

theorem materialize_path_eval (p : CParams)
    (hshape : p.shape ∈ allShapes) (h120 : p.count ≤ 120)
    (hdt : p.dtype ∈ storageDtypes) :
    (materialize ⟨[p.mkHdr], [], [("data.bin", p.streamInit.data)]⟩
      ⟨Source.path "data.bin", p.mkHdr⟩).1 = some p.expected := by
  show decodeArray ((p.streamInit.data.drop p.offset).take (byteCount p.mkHdr)) p.mkHdr
    = some p.expected
  rw [read_bytes_eq p]
  exact decodeArray_dataBytes p hshape h120 hdt

theorem mem_allCases_params (c : Case) (hc : c ∈ allCases) :
    c.params ∈ allParams := by
  rcases List.mem_flatMap.mp hc with ⟨p, hp, hcp⟩
  simp only [List.mem_cons, List.not_mem_nil, or_false] at hcp
  rcases hcp with rfl | rfl <;> exact hp

/-- On every generated case, materializing the freshly constructed
proxy yields exactly the expected array (values, shape, and output
dtype) of the harness. -/
theorem materialize_eval (c : Case) (hc : c ∈ allCases) :
    (materialize c.world c.proxy).1 = some c.params.expected := by
  obtain ⟨hshape, h120, _, hdt, _⟩ := params_facts c.params (mem_allCases_params c hc)
  cases c with
  | mk p b =>
      cases b
      · exact materialize_path_eval p hshape h120 hdt
      · exact materialize_stream_eval p hshape h120 hdt

theorem materialize_data_congr (w w' : World) (p : ArrayProxy)
    (hs : w.streams.map Stream.data = w'.streams.map Stream.data)
    (hf : w.files = w'.files) :
    (materialize w p).1 = (materialize w' p).1 := by
  cases p with
  | mk src hdr =>
      cases src with
      | stream sid =>
          have h : (w.streams[sid]?).map Stream.data
              = (w'.streams[sid]?).map Stream.data := by
            rw [← List.getElem?_map, ← List.getElem?_map, hs]
          cases h1 : w.streams[sid]? with
          | none =>
              cases h2 : w'.streams[sid]? with
              | none => simp [materialize, h1, h2]
              | some s' => rw [h1, h2] at h; simp at h
          | some s =>
              cases h2 : w'.streams[sid]? with
              | none => rw [h1, h2] at h; simp at h
              | some s' =>
                  rw [h1, h2] at h
                  simp only [Option.map_some', Option.some.injEq] at h
                  simp [materialize, h1, h2, Stream.seek, Stream.read, h]
      | path name =>
          cases h2 : lookupFile w'.files name with
          | none => simp [materialize, hf, h2]
          | some bs => simp [materialize, hf, h2]

theorem map_set_data :
    ∀ (l : List Stream) (sid : Nat) (s s2 : Stream),
      l[sid]? = some s → s2.data = s.data →
      (l.set sid s2).map Stream.data = l.map Stream.data := by
  intro l
  induction l with
  | nil => intro sid s s2 h _; simp at h
  | cons x xs ih =>
      intro sid s s2 h hd
      cases sid with
      | zero =>
          simp only [List.getElem?_cons_zero, Option.some.injEq] at h
          subst h
          simp [List.set, hd]
      | succ sid =>
          simp only [List.getElem?_cons_succ] at h
          simp [List.set, ih sid s s2 h hd]

theorem materialize_snd (w : World) (p : ArrayProxy) :
    ((materialize w p).2).heap = w.heap ∧
    ((materialize w p).2).files = w.files ∧
    ((materialize w p).2).streams.map Stream.data = w.streams.map Stream.data := by
  cases p with
  | mk src hdr =>
      cases src with
      | stream sid =>
          cases h1 : w.streams[sid]? with
          | none => simp [materialize, h1]
          | some s =>
              refine ⟨by simp [materialize, h1, setStream],
                by simp [materialize, h1, setStream], ?_⟩
              simp only [materialize, h1, setStream]
              exact map_set_data w.streams sid s _ h1 rfl
      | path name =>
          cases h2 : lookupFile w.files name with
          | none => simp [materialize, h2]
          | some bs => simp [materialize, h2]

theorem materializeN_result (w : World) (p : ArrayProxy) :
    ∀ k, (materializeN w p k).1 = (materialize w p).1 := by
  intro k
  induction k generalizing w with
  | zero => rfl
  | succ k ih =>
      show (materializeN (materialize w p).2 p k).1 = _
      rw [ih]
      obtain ⟨_, h2, h3⟩ := materialize_snd w p
      exact materialize_data_congr _ _ p h3 h2

/-- The test step `fio.read()`: read stream `sid` to end-of-file,
moving its position. -/
def readAllStream (w : World) (sid : Nat) : World :=
  match w.streams[sid]? with
  | none => w
  | some s => setStream w sid s.readAll.2

theorem readAllStream_data (w : World) (sid : Nat) :
    (readAllStream w sid).streams.map Stream.data = w.streams.map Stream.data ∧
    (readAllStream w sid).files = w.files := by
  cases h1 : w.streams[sid]? with
  | none => simp [readAllStream, h1]
  | some s =>
      refine ⟨?_, by simp [readAllStream, h1, setStream]⟩
      simp only [readAllStream, h1, setStream]
      exact map_set_data w.streams sid s _ h1 rfl

/-- Re-point stream `sid` to an arbitrary position (models any caller
seek/read activity that moves the shared handle). -/
def setStreamPos (w : World) (sid q : Nat) : World :=
  match w.streams[sid]? with
  | none => w
  | some s => setStream w sid (s.seek q)

theorem setStreamPos_data (w : World) (sid q : Nat) :
    (setStreamPos w sid q).streams.map Stream.data = w.streams.map Stream.data ∧
    (setStreamPos w sid q).files = w.files := by
  cases h1 : w.streams[sid]? with
  | none => simp [setStreamPos, h1]
  | some s =>
      refine ⟨?_, by simp [setStreamPos, h1, setStream]⟩
      simp only [setStreamPos, h1, setStream]
      exact map_set_data w.streams sid s _ h1 rfl

/-- The header mutation `validate_header_isolated` performs on the
original header object after proxy construction: flip the dtype between
`uint8` and `int16`, increment every dimension of the shape, and set
the offset to 32 when the variant supports it. -/
def isolationMutate (settable : Bool) (h : HeaderData) : Except HdrError HeaderData := do
  let h1 ← set_data_dtype h (if h.dtype = Dtype.uint8 then Dtype.int16 else Dtype.uint8)
  let h2 ← set_data_shape h1 (h1.shape.map (· + 1))
  if settable then set_data_offset h2 32 else pure h2

/-- Whether an `Except` result is a success. -/
def exceptOk : Except HdrError HeaderData → Bool
  | .ok _ => true
  | .error _ => false

set_option maxRecDepth 8000 in
/-- The `validate_header_isolated` mutation sequence succeeds on every
generated case's header. -/
theorem isolationMutate_ok :
    ∀ p ∈ allParams,
      exceptOk (isolationMutate p.variant.settableOffset p.mkHdr) = true := by
  decide

theorem mem_allCases_of_params (p : CParams) (hp : p ∈ allParams) (b : Bool) :
    (⟨p, b⟩ : Case) ∈ allCases := by
  refine List.mem_flatMap.mpr ⟨p, hp, ?_⟩
  cases b <;> simp

/-- First generated case: plain Analyze, shape `(2,)`, `uint8`,
offset 0, no scaling, stream source. -/
def caseA : Case := ⟨⟨.analyze, [2], .uint8, 0, 1, 0⟩, true⟩

/-- A NIfTI-1 case with nontrivial scaling: shape `(2,)`, `uint8`,
offset 0, slope 2, intercept 10, stream source. -/
def caseN : Case := ⟨⟨.nifti1, [2], .uint8, 0, 2, 10⟩, true⟩

/-- C1: for every proxy built from a harness-generated (source, header)
pair, applying `validate_header_isolated`'s mutation to the original
header object after construction (dtype flip, all dimensions
incremented, offset set to 32 when settable) succeeds and leaves
`materialize()` equal to the expected pre-mutation array. -/
theorem claim_C1_header_isolated :
    ∀ c ∈ allCases, ∃ h2,
      isolationMutate c.params.variant.settableOffset c.params.mkHdr = Except.ok h2 ∧
      (materialize { c.world with heap := [h2] } c.proxy).1 = some c.params.expected := by
  intro c hc
  have hok := isolationMutate_ok c.params (mem_allCases_params c hc)
  cases hmk : isolationMutate c.params.variant.settableOffset c.params.mkHdr with
  | error err => rw [hmk] at hok; simp [exceptOk] at hok
  | ok h2 =>
      refine ⟨h2, rfl, ?_⟩
      rw [materialize_data_congr { c.world with heap := [h2] } c.world c.proxy rfl rfl]
      exact materialize_eval c hc

theorem claim_C1_witness :
    ∃ h2,
      isolationMutate caseA.params.variant.settableOffset caseA.params.mkHdr
        = Except.ok h2 ∧
      (materialize { caseA.world with heap := [h2] } caseA.proxy).1
        = some caseA.params.expected :=
  claim_C1_header_isolated caseA (by decide)

/-- C2: on every generated case whose scaling pair is not the identity,
`materialize()` returns `raw * slope + inter` elementwise with exactly
the promoted dtype, and that dtype (the harness's expected output
dtype, computed through `apply_read_scaling`) is determined by the raw
dtype alone. -/
theorem claim_C2_scaling :
    ∀ c ∈ allCases, ¬(c.params.slope = 1 ∧ c.params.inter = 0) →
      (materialize c.world c.proxy).1
        = some ⟨promoteScaled c.params.dtype, c.params.shape,
            (List.range c.params.count).map fun v =>
              qadd (qmul (qofNat v) c.params.slope) c.params.inter⟩ ∧
      c.params.dtypeOut = promoteScaled c.params.dtype := by
  intro c hc h
  have hdt : c.params.dtypeOut = promoteScaled c.params.dtype := by
    unfold CParams.dtypeOut apply_read_scaling
    rw [if_neg h, if_neg h]
  refine ⟨?_, hdt⟩
  rw [materialize_eval c hc]
  unfold CParams.expected CParams.arrOut
  rw [hdt]

theorem claim_C2_witness :
    (materialize caseN.world caseN.proxy).1
      = some ⟨promoteScaled caseN.params.dtype, caseN.params.shape,
          (List.range caseN.params.count).map fun v =>
            qadd (qmul (qofNat v) caseN.params.slope) caseN.params.inter⟩ ∧
    caseN.params.dtypeOut = promoteScaled caseN.params.dtype :=
  claim_C2_scaling caseN (by decide) (by decide)

/-- C3: on every generated case with slope exactly 1 and intercept
exactly 0, `materialize()` returns the raw on-disk array unchanged with
the dtype the data was written with; for any other pair
`apply_read_scaling` takes the scaled, promoted path. -/
theorem claim_C3_identity_shortcut :
    (∀ c ∈ allCases, c.params.slope = 1 → c.params.inter = 0 →
      (materialize c.world c.proxy).1
        = some ⟨c.params.dtype, c.params.shape, c.params.rawFlat⟩) ∧
    (∀ (a : NDArr) (s i : ℚ), ¬(s = 1 ∧ i = 0) →
      apply_read_scaling a s i
        = ⟨promoteScaled a.dtype, a.shape, a.flat.map fun v => qadd (qmul v s) i⟩) := by
  constructor
  · intro c hc h1 h2
    rw [materialize_eval c hc]
    unfold CParams.expected CParams.dtypeOut CParams.arrOut CParams.rawFlat
    rw [if_pos ⟨h1, h2⟩]
    refine congrArg some (congrArg (NDArr.mk _ _) ?_)
    apply List.map_congr_left
    intro v _
    rw [h1, h2, qmul_one, qadd_zero]
  · intro a s i h
    unfold apply_read_scaling
    rw [if_neg h]

theorem claim_C3_witness :
    (materialize caseA.world caseA.proxy).1
      = some ⟨caseA.params.dtype, caseA.params.shape, caseA.params.rawFlat⟩ ∧
    apply_read_scaling ⟨Dtype.uint8, [2], [0, 1]⟩ 2 10
      = ⟨promoteScaled Dtype.uint8, [2],
          ([0, 1] : List ℚ).map fun v => qadd (qmul v 2) 10⟩ :=
  ⟨claim_C3_identity_shortcut.1 caseA (by decide) (by decide) (by decide),
   claim_C3_identity_shortcut.2 ⟨Dtype.uint8, [2], [0, 1]⟩ 2 10 (by decide)⟩

/-- C4: on every generated stream case, materializing, then reading the
caller's stream to end-of-file, then materializing again yields the
expected array both times — the proxy's output does not depend on the
stream position between construction/materializations. -/
theorem claim_C4_fileobj_isolated :
    ∀ c ∈ allCases, c.isStream = true →
      (materialize c.world c.proxy).1 = some c.params.expected ∧
      (materialize (readAllStream (materialize c.world c.proxy).2 0) c.proxy).1
        = some c.params.expected := by
  intro c hc _
  refine ⟨materialize_eval c hc, ?_⟩
  obtain ⟨_, hf, hs⟩ := materialize_snd c.world c.proxy
  obtain ⟨hs2, hf2⟩ := readAllStream_data (materialize c.world c.proxy).2 0
  rw [materialize_data_congr _ c.world c.proxy (hs2.trans hs) (hf2.trans hf)]
  exact materialize_eval c hc

theorem claim_C4_witness :
    (materialize caseA.world caseA.proxy).1 = some caseA.params.expected ∧
    (materialize (readAllStream (materialize caseA.world caseA.proxy).2 0) caseA.proxy).1
      = some caseA.params.expected :=
  claim_C4_fileobj_isolated caseA (by decide) rfl

/-- C5: for every generated parameter tuple, the stream-built proxy and
the path-built proxy over the identical bytes and equal header
materialize to the same array (hence equal values and equal output
dtype), and that common value is the expected one. -/
theorem claim_C5_source_equivalence :
    ∀ p ∈ allParams,
      (materialize (Case.world ⟨p, true⟩) (Case.proxy ⟨p, true⟩)).1
          = (materialize (Case.world ⟨p, false⟩) (Case.proxy ⟨p, false⟩)).1 ∧
      (materialize (Case.world ⟨p, true⟩) (Case.proxy ⟨p, true⟩)).1
          = some p.expected := by
  intro p hp
  have h1 := materialize_eval ⟨p, true⟩ (mem_allCases_of_params p hp true)
  have h2 := materialize_eval ⟨p, false⟩ (mem_allCases_of_params p hp false)
  exact ⟨h1.trans h2.symm, h1⟩

theorem claim_C5_witness :
    (materialize (Case.world ⟨caseA.params, true⟩) (Case.proxy ⟨caseA.params, true⟩)).1
        = (materialize (Case.world ⟨caseA.params, false⟩)
            (Case.proxy ⟨caseA.params, false⟩)).1 ∧
    (materialize (Case.world ⟨caseA.params, true⟩) (Case.proxy ⟨caseA.params, true⟩)).1
        = some caseA.params.expected :=
  claim_C5_source_equivalence caseA.params (by decide)

/-- C6: for every generated case, the proxy's `shape` equals the shape
the header declared at construction time (the tuple's shape), and every
assignment to `shape` fails with `ImmutableAttributeError`. -/
theorem claim_C6_shape :
    ∀ c ∈ allCases,
      c.proxy.shape = c.params.mkHdr.shape ∧
      c.proxy.shape = c.params.shape ∧
      ∀ s, c.proxy.setShapeAttr s = Except.error ProxyError.immutableAttributeError := by
  intro c _
  exact ⟨rfl, rfl, fun _ => rfl⟩

theorem claim_C6_witness :
    caseA.proxy.shape = caseA.params.mkHdr.shape ∧
    caseA.proxy.shape = caseA.params.shape ∧
    caseA.proxy.setShapeAttr [9, 9] = Except.error ProxyError.immutableAttributeError :=
  ⟨(claim_C6_shape caseA (by decide)).1, (claim_C6_shape caseA (by decide)).2.1,
   (claim_C6_shape caseA (by decide)).2.2 [9, 9]⟩

/-- C7: materialization is idempotent — on every generated case, the
`(k+1)`-th chained invocation of `materialize()` returns the expected
array for every `k`. -/
theorem claim_C7_idempotent :
    ∀ c ∈ allCases, ∀ k,
      (materializeN c.world c.proxy k).1 = some c.params.expected := by
  intro c hc k
  rw [materializeN_result]
  exact materialize_eval c hc

theorem claim_C7_witness :
    (materializeN caseA.world caseA.proxy 2).1 = some caseA.params.expected :=
  claim_C7_idempotent caseA (by decide) 2

/-- C8: on every generated case, accessing the backward-compatibility
`header` property emits a `FutureWarning`, returns an object whose
value equals the proxy's internal snapshot, and allocates it at a fresh
identity that did not exist in the pre-access world (never the same
object as the constructor's header or the live snapshot). -/
theorem claim_C8_deprecated_header :
    ∀ c ∈ allCases,
      (ArrayProxy.headerProp c.world c.proxy).2.2 = Warning.futureWarning ∧
      ((ArrayProxy.headerProp c.world c.proxy).2.1).heap[(ArrayProxy.headerProp c.world c.proxy).1]?
        = some c.proxy.hdr ∧
      c.world.heap[(ArrayProxy.headerProp c.world c.proxy).1]? = none := by
  intro c _
  exact ⟨rfl, rfl, rfl⟩

theorem claim_C8_witness :
    (ArrayProxy.headerProp caseA.world caseA.proxy).2.2 = Warning.futureWarning ∧
    ((ArrayProxy.headerProp caseA.world caseA.proxy).2.1).heap[(ArrayProxy.headerProp caseA.world caseA.proxy).1]?
      = some caseA.proxy.hdr ∧
    caseA.world.heap[(ArrayProxy.headerProp caseA.world caseA.proxy).1]? = none :=
  claim_C8_deprecated_header caseA (by decide)

/-- C9: setting a 2-dimensional shape on an MGH header fails with
`ConfigurationError`; the harness exercises MGH only with 3- and
4-dimensional shapes and the Analyze family with 1- through
4-dimensional shapes. -/
theorem claim_C9_mgh_dims :
    (∀ s : List Nat, s.length = 2 →
      set_data_shape (defaultHeader Variant.mgh) s
        = Except.error HdrError.configurationError) ∧
    (∀ s ∈ Variant.mgh.shapes, 3 ≤ s.length) ∧
    (∀ s ∈ Variant.analyze.shapes, 1 ≤ s.length ∧ s.length ≤ 4) := by
  refine ⟨?_, by decide, by decide⟩
  intro s hs
  have hneg : ¬((defaultHeader Variant.mgh).variant.minDims ≤ s.length ∧ ∀ d ∈ s, 0 < d) := by
    intro h
    have h1 := h.1
    rw [hs] at h1
    exact absurd h1 (by decide)
  unfold set_data_shape
  rw [if_neg hneg]

theorem claim_C9_witness :
    set_data_shape (defaultHeader Variant.mgh) [5, 5]
      = Except.error HdrError.configurationError ∧
    3 ≤ ([2, 3, 4] : List Nat).length ∧
    (1 ≤ ([2] : List Nat).length ∧ ([2] : List Nat).length ≤ 4) :=
  ⟨claim_C9_mgh_dims.1 [5, 5] rfl, claim_C9_mgh_dims.2.1 [2, 3, 4] (by decide),
   claim_C9_mgh_dims.2.2 [2] (by decide)⟩

/-- C10: on every generated stream case, the stream's position at proxy
construction is the end of the just-written data (offset plus data
length, which is positive, hence not the data offset), and
`materialize()` yields the expected array for every stream position
whatsoever at call time. -/
theorem claim_C10_position_independent :
    ∀ c ∈ allCases, c.isStream = true →
      (c.params.streamInit.pos = c.params.offset + c.params.dataBytes.length ∧
        0 < c.params.dataBytes.length) ∧
      ∀ q, (materialize (setStreamPos c.world 0 q) c.proxy).1
        = some c.params.expected := by
  intro c hc _
  constructor
  · refine ⟨streamInit_pos c.params, ?_⟩
    obtain ⟨_, _, h2, _, _⟩ := params_facts c.params (mem_allCases_params c hc)
    rw [dataBytes_length]
    unfold byteCount
    apply Nat.mul_pos
    · exact lt_of_lt_of_le (by decide) h2
    · cases hdt : c.params.dtype <;> simp [CParams.mkHdr, hdt, Dtype.itemsize]
  · intro q
    obtain ⟨hs2, hf2⟩ := setStreamPos_data c.world 0 q
    rw [materialize_data_congr _ c.world c.proxy hs2 hf2]
    exact materialize_eval c hc

theorem claim_C10_witness :
    (caseA.params.streamInit.pos
        = caseA.params.offset + caseA.params.dataBytes.length ∧
      0 < caseA.params.dataBytes.length) ∧
    (materialize (setStreamPos caseA.world 0 7) caseA.proxy).1
      = some caseA.params.expected :=
  ⟨(claim_C10_position_independent caseA (by decide) rfl).1,
   (claim_C10_position_independent caseA (by decide) rfl).2 7⟩

end NB
